import Mathlib

/-!
Shallow embedding of the bl602-ws2811 LED firmware core in Lean 4,
together with theorems settling the frozen specification claims.

Rust machine integers are modelled as follows: unsigned values (u8, u16,
u32, usize) become Nat, with an explicit modulus wherever the Rust code
truncates (an `as u8` / `as u16` cast, or wrapping arithmetic in release
builds); i32 values become Int, with Rust division and remainder modelled
by Int.tdiv and Int.tmod (truncation toward zero, the i32 semantics).
Fallible operations (Rust index-out-of-bounds or divide-by-zero panics)
become Option-valued definitions returning none at the halt.
-/

namespace colors

/-- Color from src/colors.rs: three 8-bit channels r, g, b.
Channel values are Nats in the range 0..255. -/
structure Color where
  r : Nat
  g : Nat
  b : Nat
deriving DecidableEq, Repr

/-- C_OFF constant from src/colors.rs. -/
def C_OFF : Color := { r := 0, g := 0, b := 0 }

/-- C_RED constant from src/colors.rs. -/
def C_RED : Color := { r := 255, g := 0, b := 0 }

/-- C_BLUE constant from src/colors.rs. -/
def C_BLUE : Color := { r := 0, g := 0, b := 255 }

/-- C_GREEN constant from src/colors.rs. -/
def C_GREEN : Color := { r := 0, g := 255, b := 0 }

/-- The Rust cast `as u8` applied to an i32 value: two's-complement
truncation to the low 8 bits, i.e. the value modulo 256. -/
def toU8 (x : Int) : Nat := (x.emod 256).toNat

/-- Color::color_lerp from src/colors.rs lines 25-43, translated verbatim.
Note the source computes the green and blue deltas from the START COLOR
RED channel (start_color.r), not from the green/blue start channels; the
embedding reproduces that. Division is i32 division (truncation toward
zero, Int.tdiv); the final `as u8` cast is toU8. -/
def Color.color_lerp (factor in_min in_max : Int)
    (start_color end_color : Color) : Color :=
  { r := toU8 (((factor - in_min) * ((end_color.r : Int) - (start_color.r : Int))).tdiv
                (in_max - in_min) + (start_color.r : Int))
    g := toU8 (((factor - in_min) * ((end_color.g : Int) - (start_color.r : Int))).tdiv
                (in_max - in_min) + (start_color.g : Int))
    b := toU8 (((factor - in_min) * ((end_color.b : Int) - (start_color.r : Int))).tdiv
                (in_max - in_min) + (start_color.b : Int)) }

/-- GAMMA8 lookup table from src/colors.rs (the 256-entry gamma
correction table). -/
def GAMMA8 : List Nat :=
  [0, 0, 0, 0, 0, 0, 0, 0, 0, 0, 0, 0, 0, 0, 0, 0, 0, 0, 0, 0, 0, 0, 0, 0, 0, 0, 0, 0, 1, 1, 1, 1,
   1, 1, 1, 1, 1, 1, 1, 1, 1, 2, 2, 2, 2, 2, 2, 2, 2, 3, 3, 3, 3, 3, 3, 3, 4, 4, 4, 4, 4, 5, 5, 5,
   5, 6, 6, 6, 6, 7, 7, 7, 7, 8, 8, 8, 9, 9, 9, 10, 10, 10, 11, 11, 11, 12, 12, 13, 13, 13, 14,
   14, 15, 15, 16, 16, 17, 17, 18, 18, 19, 19, 20, 20, 21, 21, 22, 22, 23, 24, 24, 25, 25, 26, 27,
   27, 28, 29, 29, 30, 31, 32, 32, 33, 34, 35, 35, 36, 37, 38, 39, 39, 40, 41, 42, 43, 44, 45, 46,
   47, 48, 49, 50, 50, 51, 52, 54, 55, 56, 57, 58, 59, 60, 61, 62, 63, 64, 66, 67, 68, 69, 70, 72,
   73, 74, 75, 77, 78, 79, 81, 82, 83, 85, 86, 87, 89, 90, 92, 93, 95, 96, 98, 99, 101, 102, 104,
   105, 107, 109, 110, 112, 114, 115, 117, 119, 120, 122, 124, 126, 127, 129, 131, 133, 135, 137,
   138, 140, 142, 144, 146, 148, 150, 152, 154, 156, 158, 160, 162, 164, 167, 169, 171, 173, 175,
   177, 180, 182, 184, 186, 189, 191, 193, 196, 198, 200, 203, 205, 208, 210, 213, 215, 218, 220,
   223, 225, 228, 231, 233, 236, 239, 241, 244, 247, 249, 252, 255]

/-- Color::set_rgb from src/colors.rs: channel assignment through the
GAMMA8 lookup table. -/
def Color.set_rgb (_c : Color) (r g b : Nat) : Color :=
  { r := GAMMA8.getD r 0, g := GAMMA8.getD g 0, b := GAMMA8.getD b 0 }

/-- Modelled from the spec: Color::set_color is called by
LogicalStrip::set_color_at_index (src/leds.rs line 118) but its body is
not present under src/; spec section 3 states that channel assignment
applies the fixed 256-entry gamma lookup table, so set_color assigns each
channel of the argument color through GAMMA8, exactly as the in-source
Color::set_rgb does. -/
def Color.set_color (c : Color) (color : Color) : Color :=
  c.set_rgb color.r color.g color.b

end colors

namespace utility

open colors

/-- Progression from src/utility.rs lines 232-237: a bounded frame counter
with direction. The current field is private in the Rust source; every
constructor and method keeps current below total whenever total is at
least 1. -/
structure Progression where
  current : Nat
  total : Nat
  is_forward : Bool
deriving DecidableEq, Repr

namespace Progression

/-- Progression::new from src/utility.rs. -/
def new (total : Nat) : Progression :=
  { current := 0, total := total, is_forward := true }

/-- Progression::reverse_direction from src/utility.rs. -/
def reverse_direction (p : Progression) : Progression :=
  { p with is_forward := !p.is_forward }

/-- Progression::is_mono from src/utility.rs. -/
def is_mono (p : Progression) : Bool := p.total ≤ 1

/-- Progression::is_first_frame from src/utility.rs. -/
def is_first_frame (p : Progression) : Bool := p.current = 0

/-- Progression::get_current from src/utility.rs. -/
def get_current (p : Progression) : Nat :=
  if p.is_mono then 0
  else match p.is_forward with
    | true => p.current
    | false => p.total - 1 - p.current

/-- Progression::set_current from src/utility.rs. -/
def set_current (p : Progression) (value : Nat) : Progression :=
  if p.is_mono then p
  else { p with current := value % p.total }

/-- Progression::up_one from src/utility.rs. -/
def up_one (p : Progression) : Nat :=
  if p.is_mono then 0 else (p.current + 1) % p.total

/-- Progression::down_one from src/utility.rs. -/
def down_one (p : Progression) : Nat :=
  if p.is_mono then 0 else (p.current + p.total - 1) % p.total

/-- Progression::peek_next from src/utility.rs. -/
def peek_next (p : Progression) : Nat := p.up_one

/-- Progression::peek_prev from src/utility.rs. -/
def peek_prev (p : Progression) : Nat := p.down_one

/-- Progression::increment from src/utility.rs. -/
def increment (p : Progression) : Progression :=
  if p.is_mono then p else { p with current := p.peek_next }

/-- Progression::checked_increment from src/utility.rs: performs the
increment and reports whether the counter wrapped to 0. Returned as
the pair (reported bool, updated state). -/
def checked_increment (p : Progression) : Bool × Progression :=
  if p.is_mono then (false, p)
  else
    let q := p.increment
    (q.current = 0, q)

/-- Progression::decrement from src/utility.rs. -/
def decrement (p : Progression) : Progression :=
  if p.is_mono then p else { p with current := p.peek_prev }

/-- Progression::checked_decrement from src/utility.rs. -/
def checked_decrement (p : Progression) : Bool × Progression :=
  if p.is_mono then (false, p)
  else
    let q := p.decrement
    (q.current = q.total - 1, q)

/-- Progression::reset from src/utility.rs. -/
def reset (p : Progression) : Progression := { p with current := 0 }

end Progression

/-- Color::lerp_with from src/utility.rs lines 331-335. -/
def lerp_with (self to_color : Color) (factor : Progression) : Color :=
  Color.color_lerp (factor.get_current : Int) 0 (factor.total : Int) self to_color

/-- convert_ns_to_frames from src/utility.rs lines 60-62: integer
arithmetic nanos * frame_rate / 1e9. -/
def convert_ns_to_frames (nanos : Nat) (frame_rate : Nat) : Nat :=
  nanos * frame_rate / 1000000000

/-- Direction from src/animations.rs lines 140-145. -/
inductive Direction where
  | Positive
  | Stopped
  | Negative
deriving DecidableEq, Repr

/-- MAX_OFFSET from src/animations.rs line 15: u16::MAX. -/
def MAX_OFFSET : Nat := 65535

/-- shift_offset from src/utility.rs lines 82-94. The final
`as u16` cast of the usize sum is modelled by reducing modulo 65536. -/
def shift_offset (starting_offset : Nat) (frames : Progression)
    (direction : Direction) : Nat :=
  if frames.total = 0 then starting_offset
  else
    let offset_shift :=
      match direction with
      | Direction.Positive => MAX_OFFSET * frames.get_current / frames.total
      | Direction.Negative => MAX_OFFSET * (frames.total - frames.get_current) / frames.total
      | Direction.Stopped => 0
    (starting_offset + offset_shift) % 65536

/-- ReversibleRainbow from src/utility.rs lines 96-120: a borrowed color
slice with an orientation flag. The backer slice is modelled as a list. -/
structure ReversibleRainbow where
  backer : List Color
  is_forward : Bool
deriving DecidableEq, Repr

/-- ReversibleRainbow indexing (Index impl, src/utility.rs lines 111-120).
Rust panics when the index is out of bounds; the embedding totalizes with
C_OFF, and every theorem below is used only under the spec section 3
precondition that palettes are non-empty, which keeps all reads in
bounds. -/
def ReversibleRainbow.index (r : ReversibleRainbow) (i : Nat) : Color :=
  match r.is_forward with
  | true => r.backer.getD i C_OFF
  | false => r.backer.getD (r.backer.length - 1 - i) C_OFF

/-- StatefulRainbow from src/utility.rs lines 195-230. -/
structure StatefulRainbow where
  backer : ReversibleRainbow
  position : Progression
deriving DecidableEq, Repr

namespace StatefulRainbow

/-- StatefulRainbow::new from src/utility.rs. -/
def new (rainbow : List Color) (is_forward : Bool) : StatefulRainbow :=
  { backer := { backer := rainbow, is_forward := is_forward }
    position := Progression.new rainbow.length }

/-- StatefulRainbow::current_color from src/utility.rs. -/
def current_color (s : StatefulRainbow) : Color :=
  s.backer.index s.position.get_current

/-- StatefulRainbow::peek_next_color from src/utility.rs. -/
def peek_next_color (s : StatefulRainbow) : Color :=
  s.backer.index s.position.peek_next

/-- StatefulRainbow::increment from src/utility.rs. -/
def increment (s : StatefulRainbow) : StatefulRainbow :=
  { s with position := s.position.increment }

/-- StatefulRainbow::reset from src/utility.rs. -/
def reset (s : StatefulRainbow) : StatefulRainbow :=
  { s with position := s.position.reset }

end StatefulRainbow

/-- FadeRainbow::calculate_fade_color from src/utility.rs lines 126-135,
instantiated at the TimedRainbows implementation used by the trigger
collection: the rainbow is the fade rainbow and the frames counter is the
shared duration Progression. -/
def calculate_fade_color (rainbow : StatefulRainbow) (frames : Progression) : Color :=
  let current_color := rainbow.current_color
  if frames.total = 0 then current_color
  else
    let next_color := rainbow.peek_next_color
    lerp_with current_color next_color frames

end utility

namespace animations

open colors

/-- The private Progression from src/animations.rs lines 861-865: a second,
older counter type living alongside utility::Progression, with no
direction flag and no mono guard. -/
structure Progression where
  current : Nat
  total : Nat
deriving DecidableEq, Repr

namespace Progression

/-- Progression::increment from src/animations.rs lines 868-871: a no-op
when total is 0, otherwise wraps modulo total. -/
def increment (p : Progression) : Progression :=
  if p.total = 0 then p
  else { p with current := (p.current + 1) % p.total }

/-- Progression::checked_increment from src/animations.rs lines 873-876:
increments, then reports whether the counter now reads 0. Unlike the
utility version there is no mono guard, so with total at most 1 the
counter reads 0 after every call and the report is true. -/
def checked_increment (p : Progression) : Bool × Progression :=
  let q := p.increment
  (q.current = 0, q)

end Progression

end animations

namespace trigger

open colors utility

/-- Mode from src/trigger.rs lines 20-79, the closed set of trigger
behaviors. The Custom variant of the source carries user-supplied
function pointers for extensibility and is outside this closed
embedding (spec section 9 treats the dispatch as a tagged union of the
listed modes). -/
inductive Mode where
  | NoTrigger
  | Background
  | Foreground
  | ColorPulse
  | ColorPulseFade
  | ColorPulseRainbow
  | ColorShot
  | ColorShotFade
  | ColorShotRainbow
  | Flash
  | FlashFade
  | FlashRainbow
deriving DecidableEq, Repr

/-- Tags naming the three init function families of src/trigger.rs
lines 273-317. -/
inductive InitKind where
  | color_pulse
  | color_pulse_fade
  | color_pulse_rainbow
  | color_shot
  | color_shot_fade
  | color_shot_rainbow
  | flash
  | flash_fade
  | flash_rainbow
deriving DecidableEq, Repr

/-- Tags naming the three updater functions of src/trigger.rs
lines 236-271. -/
inductive UpdKind where
  | color_pulse
  | color_shot
  | flash
deriving DecidableEq, Repr

/-- Mode::get_behavior from src/trigger.rs lines 82-98: the
(init, update) function pair of each mode, as tags. -/
def Mode.get_behavior : Mode → Option InitKind × Option UpdKind
  | Mode.NoTrigger => (none, none)
  | Mode.Background => (none, none)
  | Mode.Foreground => (none, none)
  | Mode.ColorPulse => (some InitKind.color_pulse, some UpdKind.color_pulse)
  | Mode.ColorPulseFade => (some InitKind.color_pulse_fade, some UpdKind.color_pulse)
  | Mode.ColorPulseRainbow => (some InitKind.color_pulse_rainbow, some UpdKind.color_pulse)
  | Mode.ColorShot => (some InitKind.color_shot, some UpdKind.color_shot)
  | Mode.ColorShotFade => (some InitKind.color_shot_fade, some UpdKind.color_shot)
  | Mode.ColorShotRainbow => (some InitKind.color_shot_rainbow, some UpdKind.color_shot)
  | Mode.Flash => (some InitKind.flash, some UpdKind.flash)
  | Mode.FlashFade => (some InitKind.flash_fade, some UpdKind.flash)
  | Mode.FlashRainbow => (some InitKind.flash_rainbow, some UpdKind.flash)

/-- Parameters from src/trigger.rs lines 164-171. Times are nanosecond
counts (u64). -/
structure Parameters where
  mode : Mode
  direction : Direction
  fade_in_time_ns : Nat
  fade_out_time_ns : Nat
  starting_offset : Nat
  pixels_per_pixel_group : Nat
deriving DecidableEq, Repr

/-- Trigger from src/trigger.rs lines 175-183. The updater function
pointer field is represented by its UpdKind tag. -/
structure Trigger where
  offset : Nat
  frames : Progression
  transition_frame : Nat
  direction : Direction
  color : Color
  updater : Option UpdKind
  pixels_per_pixel_group : Nat
deriving DecidableEq, Repr

/-- Trigger::new from src/trigger.rs lines 186-200. -/
def Trigger.new (init : Parameters) (color : Color) (frame_rate : Nat) : Trigger :=
  let total_duration_ns := init.fade_in_time_ns + init.fade_out_time_ns
  let frames := Progression.new (convert_ns_to_frames total_duration_ns frame_rate)
  { offset := init.starting_offset
    frames := frames
    transition_frame := convert_ns_to_frames init.fade_in_time_ns frame_rate
    direction := init.direction
    color := color
    updater := none
    pixels_per_pixel_group := init.pixels_per_pixel_group }

/-- get_trigger_fade_progress from src/trigger.rs lines 219-234. -/
def get_trigger_fade_progress (t : Trigger) : Progression :=
  let is_fade_in := t.frames.get_current < t.transition_frame
  if is_fade_in then
    let progress := Progression.new t.transition_frame
    progress.set_current t.frames.get_current
  else
    let progress := (Progression.new (t.frames.total - t.transition_frame)).reverse_direction
    progress.set_current (t.frames.get_current - t.transition_frame)

/-- flash from src/trigger.rs lines 236-242: lerp every segment pixel
toward the trigger color by the fade progress. -/
def flash (t : Trigger) (segment : List Color) : List Color :=
  let progress := get_trigger_fade_progress t
  segment.map (fun led => lerp_with led t.color progress)

/-- color_pulse from src/trigger.rs lines 244-256. The source divides and
takes remainders by segment.len(), which panics on an empty segment in
Rust; the Lean division convention x / 0 = 0 stands in at that
unreachable configuration. -/
def color_pulse (t : Trigger) (segment : List Color) : List Color :=
  let progress := get_trigger_fade_progress t
  let first_led_index := t.offset / segment.length
  let shot_width := max 1 t.pixels_per_pixel_group
  let indices := (List.range shot_width).map
    (fun k => (first_led_index + k) % segment.length)
  indices.foldl
    (fun seg i => seg.set i (lerp_with (seg.getD i C_OFF) t.color progress))
    segment

/-- color_shot from src/trigger.rs lines 258-271. As with color_pulse,
the divisions by segment-derived quantities panic in Rust when the
segment is empty or longer than MAX_OFFSET; the Lean x / 0 = 0
convention stands in at those unreachable configurations. -/
def color_shot (t : Trigger) (segment : List Color) : List Color :=
  let current_offset := shift_offset t.offset t.frames t.direction
  let offset_distance_between_leds := MAX_OFFSET / segment.length
  let first_led_index := current_offset / offset_distance_between_leds
  let shot_width := max 1 t.pixels_per_pixel_group
  let indices := (List.range shot_width).map
    (fun k => (first_led_index + k) % segment.length)
  indices.foldl (fun seg i => seg.set i t.color) segment

/-- Dispatch of an UpdKind tag to its updater function. -/
def applyUpdater : UpdKind → Trigger → List Color → List Color
  | UpdKind.color_pulse => color_pulse
  | UpdKind.color_shot => color_shot
  | UpdKind.flash => flash

/-- Trigger::update from src/trigger.rs lines 202-207: run the updater on
the segment, then increment the frame counter. None of the closed-set
updaters mutates the trigger itself. -/
def Trigger.update (t : Trigger) (segment : List Color) : Trigger × List Color :=
  let segment := match t.updater with
    | none => segment
    | some k => applyUpdater k t segment
  ({ t with frames := t.frames.increment }, segment)

/-- GlobalParameters from src/trigger.rs lines 102-106. -/
structure GlobalParameters where
  rainbow : List Color
  is_rainbow_forward : Bool
  duration_ns : Nat
deriving DecidableEq, Repr

/-- TriggerCollection from src/trigger.rs lines 110-115. The ArrayVec
with const capacity N is modelled as a list together with the capacity
bound. -/
structure TriggerCollection where
  fade_rainbow : StatefulRainbow
  incremental_rainbow : StatefulRainbow
  frames : Progression
  triggers : List Trigger
  cap : Nat
deriving DecidableEq, Repr

namespace TriggerCollection

/-- TriggerCollection::new from src/trigger.rs lines 118-125. -/
def new (init : GlobalParameters) (frame_rate : Nat) (cap : Nat) : TriggerCollection :=
  { fade_rainbow := StatefulRainbow.new init.rainbow init.is_rainbow_forward
    incremental_rainbow := StatefulRainbow.new init.rainbow init.is_rainbow_forward
    frames := Progression.new (convert_ns_to_frames init.duration_ns frame_rate)
    triggers := []
    cap := cap }

/-- MarchingRainbow::current_rainbow_color for TriggerCollection
(src/trigger.rs lines 210-217): the current color of the incremental
rainbow. -/
def current_rainbow_color (c : TriggerCollection) : Color :=
  c.incremental_rainbow.current_color

/-- MarchingRainbowMut::advance_rainbow_color from src/utility.rs
lines 155-159, instantiated at TimedRainbows: increments the incremental
rainbow and resets the shared frame counter. -/
def advance_rainbow_color (c : TriggerCollection) : TriggerCollection :=
  { c with incremental_rainbow := c.incremental_rainbow.increment
           frames := c.frames.reset }

/-- The init function dispatch of src/trigger.rs lines 273-317, acting on
the freshly built trigger and the shared TimedRainbows state. The random
position that init_color_pulse reads from the hardware cycle counter
(get_random_offset, src/utility.rs lines 78-80) enters as the rand
argument. -/
def runInit (k : InitKind) (t : Trigger) (c : TriggerCollection) (rand : Nat) :
    Trigger × TriggerCollection :=
  match k with
  | InitKind.color_pulse =>
      ({ t with direction := Direction.Stopped, offset := rand }, c)
  | InitKind.color_pulse_fade =>
      let t := { t with color := calculate_fade_color c.fade_rainbow c.frames }
      ({ t with direction := Direction.Stopped, offset := rand }, c)
  | InitKind.color_pulse_rainbow =>
      let t := { t with color := c.current_rainbow_color }
      let t := { t with direction := Direction.Stopped, offset := rand }
      (t, c.advance_rainbow_color)
  | InitKind.color_shot => (t, c)
  | InitKind.color_shot_fade =>
      ({ t with color := calculate_fade_color c.fade_rainbow c.frames }, c)
  | InitKind.color_shot_rainbow =>
      ({ t with color := c.current_rainbow_color }, c.advance_rainbow_color)
  | InitKind.flash =>
      ({ t with direction := Direction.Stopped }, c)
  | InitKind.flash_fade =>
      let t := { t with direction := Direction.Stopped }
      ({ t with color := calculate_fade_color c.fade_rainbow c.frames }, c)
  | InitKind.flash_rainbow =>
      let t := { t with direction := Direction.Stopped }
      let t := { t with color := c.current_rainbow_color }
      (t, c.advance_rainbow_color)

/-- TriggerCollection::add_trigger from src/trigger.rs lines 127-144:
build the trigger from the parameters and the current shared rainbow
color, run the mode init, set the updater, then try_push (ArrayVec
semantics: append when below capacity, silently drop otherwise). -/
def add_trigger (c : TriggerCollection) (init : Parameters) (frame_rate : Nat)
    (rand : Nat) : TriggerCollection :=
  let behavior := init.mode.get_behavior
  let new_trigger := Trigger.new init c.current_rainbow_color frame_rate
  let (new_trigger, c) :=
    match behavior.fst with
    | none => (new_trigger, c)
    | some k => runInit k new_trigger c rand
  let new_trigger := { new_trigger with updater := behavior.snd }
  if c.triggers.length < c.cap
  then { c with triggers := c.triggers ++ [new_trigger] }
  else c

/-- The per-trigger loop of TriggerCollection::update (src/trigger.rs
lines 147-149): each live trigger updates in order, threading the shared
segment. -/
def updateEach : List Trigger → List Color → List Trigger × List Color
  | [], segment => ([], segment)
  | t :: rest, segment =>
    let (t, segment) := t.update segment
    let (ts, segment) := updateEach rest segment
    (t :: ts, segment)

/-- The retain predicate of TriggerCollection::update (src/trigger.rs
lines 151-152): keep a trigger while its frame counter has not reached
its terminal frame total - 1. Nat subtraction truncates at total = 0
where debug Rust would halt on underflow; no trigger with total 0 occurs
in the claims below. -/
def retains (t : Trigger) : Bool := t.frames.get_current < t.frames.total - 1

/-- TriggerCollection::update from src/trigger.rs lines 146-158: update
every trigger against the segment, drop the expired ones, advance the
shared frame counter and, on rollover, the fade rainbow. -/
def update (c : TriggerCollection) (segment : List Color) :
    TriggerCollection × List Color :=
  let (ts, segment) := updateEach c.triggers segment
  let triggers := ts.filter retains
  let (did_roll, frames) := c.frames.checked_increment
  let fade_rainbow := if did_roll then c.fade_rainbow.increment else c.fade_rainbow
  ({ c with triggers := triggers, frames := frames, fade_rainbow := fade_rainbow },
   segment)

end TriggerCollection

end trigger

namespace animations

open colors utility

/-- The slice of AnimationState (src/animations.rs lines 210-218) used by
the background layer. -/
structure AnimationState where
  offset : Nat
  frames : Progression
  step_frames : Progression
  current_rainbow_color_index : Nat
  has_been_triggered : Bool
  marquee_position_toggle : Bool
deriving DecidableEq, Repr

/-- Animation::fill_rainbow from src/animations.rs lines 596-643. The
function walks the led_position_array, translating each index through
translation_array, and emits the (buffer index, color) writes it performs
through LogicalStrip::set_color_at_index, in order. Returns none where
the Rust code divides by zero and halts: when
rainbow.len() * subdivisions.max(1) is 0 (the distance computation), or
when the computed distance_between_colors is 0 (the bucket division).
The assignment of bg_state.current_rainbow_color_index to 0 that the
source performs is applied by the callers below. -/
def fill_rainbow (led_position_array translation_array : List Nat)
    (subdivisions : Nat) (start_offset : Nat) (rainbow : List Color) :
    Option (List (Nat × Color)) :=
  let max_offset := MAX_OFFSET
  let rainbow_length := rainbow.length
  let total_num_rainbow_colors := rainbow_length * max subdivisions 1
  if total_num_rainbow_colors = 0 then none
  else
    let distance_between_colors := max_offset / total_num_rainbow_colors
    if distance_between_colors = 0 then none
    else
      some ((led_position_array.zip translation_array).map (fun pt =>
        let led_position := pt.fst
        let shifted_position := (led_position + max_offset - start_offset) % max_offset
        let rainbow_bucket := shifted_position / distance_between_colors
        let bucket_start := rainbow_bucket * distance_between_colors
        let factor := shifted_position - bucket_start
        let start_color := rainbow.getD (rainbow_bucket % rainbow_length) C_OFF
        let end_color := rainbow.getD ((rainbow_bucket + 1) % rainbow_length) C_OFF
        let mid_color := Color.color_lerp (factor : Int) 0
          (distance_between_colors : Int) start_color end_color
        (pt.snd, mid_color)))

/-- Animation::update_bg_fill_rainbow from src/animations.rs
lines 695-704: on a pending trigger, jump to a random offset (rand is
the value returned by the random number generator) and clear the flag;
then fill the rainbow at the current offset. -/
def update_bg_fill_rainbow (led_position_array translation_array : List Nat)
    (subdivisions : Nat) (rainbow : List Color) (st : AnimationState)
    (rand : Nat) : Option (AnimationState × List (Nat × Color)) :=
  let st :=
    if st.has_been_triggered
    then { st with offset := rand % MAX_OFFSET, has_been_triggered := false }
    else st
  match fill_rainbow led_position_array translation_array subdivisions st.offset rainbow with
  | none => none
  | some writes => some ({ st with current_rainbow_color_index := 0 }, writes)

/-- Animation::update_bg_fill_rainbow_rotate from src/animations.rs
lines 706-728: first increment the duration frame counter, then handle a
pending trigger, then fill at the offset shifted by
MAX_OFFSET * current / total. The u16 addition of the base offset and the
shift wraps modulo 65536 (release semantics of the += in line 722), and
the result is then reduced modulo MAX_OFFSET. -/
def update_bg_fill_rainbow_rotate (led_position_array translation_array : List Nat)
    (subdivisions : Nat) (rainbow : List Color) (st : AnimationState)
    (rand : Nat) : Option (AnimationState × List (Nat × Color)) :=
  let st := { st with frames := st.frames.increment }
  let st :=
    if st.has_been_triggered
    then { st with offset := rand % MAX_OFFSET, has_been_triggered := false }
    else st
  let color_start_offset := st.offset
  let color_start_offset :=
    if st.frames.total ≠ 0
    then (color_start_offset + (MAX_OFFSET * st.frames.current / st.frames.total) % 65536) % 65536
    else color_start_offset
  let color_start_offset := color_start_offset % MAX_OFFSET
  match fill_rainbow led_position_array translation_array subdivisions color_start_offset rainbow with
  | none => none
  | some writes => some ({ st with current_rainbow_color_index := 0 }, writes)

end animations

namespace ws28xx

open colors

/-- StripTimings from src/leds.rs lines 8-12. -/
structure StripTimings where
  zero_h : Nat
  one_h : Nat
  full_cycle : Nat
deriving DecidableEq, Repr

/-- ColorOrder from src/leds.rs lines 25-32: the six channel
permutations. -/
inductive ColorOrder where
  | RGB
  | RBG
  | GRB
  | GBR
  | BRG
  | BGR
deriving DecidableEq, Repr

/-- ColorOrder::offsets from src/leds.rs lines 34-46: the byte position
of the r, g and b channels for each order. -/
def ColorOrder.offsets : ColorOrder → List Nat
  | ColorOrder.RGB => [0, 1, 2]
  | ColorOrder.RBG => [0, 2, 1]
  | ColorOrder.GRB => [1, 0, 2]
  | ColorOrder.BRG => [1, 2, 0]
  | ColorOrder.GBR => [2, 0, 1]
  | ColorOrder.BGR => [2, 1, 0]

/-- PhysicalStrip from src/leds.rs lines 48-53. -/
structure PhysicalStrip where
  led_count : Nat
  reversed : Bool
  color_order : ColorOrder
  strip_timings : StripTimings
deriving DecidableEq, Repr

/-- The running total of led_count over the first j strips; this is the
starting index of strip j in the logical buffer. -/
def ledsBefore : List PhysicalStrip → Nat → Nat
  | _, 0 => 0
  | [], _ + 1 => 0
  | s :: rest, j + 1 => s.led_count + ledsBefore rest j

/-- The total led count of a strip list: sum of PhysicalStrip.led_count
(the system invariant of spec section 3; get_total_num_leds in
src/lib.rs lines 78-86 computes the same sum). -/
def totalLeds (strips : List PhysicalStrip) : Nat :=
  (strips.map PhysicalStrip.led_count).sum

/-- The loop of LogicalStrip::belongs_to (src/leds.rs lines 142-153)
with the running start accumulator made explicit. -/
def belongsToAux : List PhysicalStrip → Nat → Nat → Option (PhysicalStrip × Nat)
  | [], _, _ => none
  | s :: rest, index, start =>
    if index < start + s.led_count then some (s, start)
    else belongsToAux rest index (start + s.led_count)

/-- LogicalStrip::belongs_to from src/leds.rs lines 142-153: find the
physical strip owning a logical index together with its start index;
none models the panic on a failed lookup. -/
def belongs_to (strips : List PhysicalStrip) (index : Nat) :
    Option (PhysicalStrip × Nat) :=
  belongsToAux strips index 0

/-- The three-byte channel reordering that set_color_at_index
(src/leds.rs lines 124-129), ByteIter::next (lines 278-280) and
colors_to_bytes (lines 232-236) all perform: write r, g, b into a
three-byte buffer at the positions given by ColorOrder::offsets. -/
def writeChunk (buffer : List Nat) (offsets : List Nat) (color : Color) : List Nat :=
  ((buffer.set (offsets.getD 0 0) color.r).set (offsets.getD 1 0) color.g).set
    (offsets.getD 2 0) color.b

/-- LogicalStrip::set_color_at_index from src/leds.rs lines 117-140:
write the gamma-corrected color into the color buffer, locate the owning
physical strip, assemble the channel-ordered byte triple, correct the
index for reversed strips, and store the three bytes. Returns none
wherever the Rust code panics: color buffer index out of bounds,
belongs_to lookup failure, or byte buffer store out of bounds. -/
def set_color_at_index (strips : List PhysicalStrip) (color_buffer : List Color)
    (byte_buffer : List Nat) (index : Nat) (color : Color) :
    Option (List Color × List Nat) :=
  if index < color_buffer.length then
    let color_buffer := color_buffer.set index
      ((color_buffer.getD index C_OFF).set_color color)
    match belongs_to strips index with
    | none => none
    | some (strip, start) =>
      let as_bytes := writeChunk [0, 0, 0] strip.color_order.offsets color
      let index :=
        if strip.reversed
        then start + (strip.led_count - 1 - (index - start))
        else index
      if 3 * index + 2 < byte_buffer.length then
        some (color_buffer,
          ((byte_buffer.set (3 * index) (as_bytes.getD 0 0)).set
            (3 * index + 1) (as_bytes.getD 1 0)).set
            (3 * index + 2) (as_bytes.getD 2 0))
      else none
  else none

/-- The write loop of LogicalStrip::colors_to_bytes (src/leds.rs
lines 222-240) with the enumeration index explicit: store each color as
three channel-ordered bytes at base 3 * i of the byte buffer. -/
def colorsToBytesAux (offsets : List Nat) : List Color → List Nat → Nat → List Nat
  | [], buffer, _ => buffer
  | color :: rest, buffer, i =>
    let buffer := ((buffer.set (3 * i + offsets.getD 0 0) color.r).set
      (3 * i + offsets.getD 1 0) color.g).set (3 * i + offsets.getD 2 0) color.b
    colorsToBytesAux offsets rest buffer (i + 1)

/-- LogicalStrip::colors_to_bytes from src/leds.rs lines 222-240,
parameterized by the fixed buffer length
(MAX_SINGLE_STRIP_BYTE_BUFFER_LENGTH in the source). -/
def colors_to_bytes (colors : List Color) (color_order : ColorOrder)
    (buffer_len : Nat) : List Nat :=
  colorsToBytesAux color_order.offsets colors (List.replicate buffer_len 0) 0

/-- LogicalStrip::bytes_as_bit_slice from src/leds.rs lines 243-245: the
Msb0 bit view of a byte buffer. Bit j of a byte is its 2^(7-j) binary
digit, most significant first. -/
def bytes_as_bit_slice (bytes : List Nat) : List Bool :=
  bytes.flatMap (fun byte => (List.range 8).map (fun j => byte.testBit (7 - j)))

/-- ByteIter from src/leds.rs lines 263-268. -/
structure ByteIterState where
  source : List Color
  offsets : List Nat
  byte_buffer : List Nat
  index : Nat
deriving DecidableEq, Repr

/-- IntoByteIter::into_bytes from src/leds.rs lines 252-261. -/
def into_bytes (source : List Color) (color_order : ColorOrder) : ByteIterState :=
  { source := source
    offsets := color_order.offsets
    byte_buffer := [0, 0, 0]
    index := 3 }

/-- ByteIter::next from src/leds.rs lines 271-288: refill the three-byte
buffer from the next source color when the buffer is exhausted, then
emit the byte at the current index. -/
def byteNext (s : ByteIterState) : Option (Nat × ByteIterState) :=
  if 2 < s.index then
    match s.source with
    | [] => none
    | color :: rest =>
      let buffer := writeChunk s.byte_buffer s.offsets color
      some (buffer.getD 0 0,
        { source := rest, offsets := s.offsets, byte_buffer := buffer, index := 1 })
  else
    some (s.byte_buffer.getD s.index 0, { s with index := s.index + 1 })

/-- Each successful ByteIter step either consumes a source color or
raises the buffer index, so the pair (source length, remaining buffer)
drops lexicographically. -/
theorem byteNext_lex {s : ByteIterState} {b : Nat} {s2 : ByteIterState}
    (h : byteNext s = some (b, s2)) :
    Prod.Lex (· < ·) (· < ·) (s2.source.length, 3 - s2.index)
      (s.source.length, 3 - s.index) := by
  unfold byteNext at h
  by_cases hidx : 2 < s.index
  · rw [if_pos hidx] at h
    cases hsrc : s.source with
    | nil => rw [hsrc] at h; exact absurd h (by simp)
    | cons c rest =>
      rw [hsrc] at h
      simp only [Option.some.injEq, Prod.mk.injEq] at h
      rw [← h.2]
      apply Prod.Lex.left
      simp [hsrc]
  · rw [if_neg hidx] at h
    simp only [Option.some.injEq, Prod.mk.injEq] at h
    rw [← h.2]
    apply Prod.Lex.right
    show 3 - (s.index + 1) < 3 - s.index
    omega

/-- The full byte sequence produced by pulling a ByteIter until it is
exhausted. -/
def drainBytes (s : ByteIterState) : List Nat :=
  match h : byteNext s with
  | none => []
  | some (b, s2) => b :: drainBytes s2
termination_by (s.source.length, 3 - s.index)
decreasing_by exact byteNext_lex h

/-- BitIter from src/leds.rs lines 305-309. -/
structure BitIterState where
  source : List Nat
  current_byte : Nat
  mask : Nat
deriving DecidableEq, Repr

/-- IntoBitIter::into_bits from src/leds.rs lines 295-303. -/
def into_bits (source : List Nat) : BitIterState :=
  { source := source, current_byte := 0, mask := 0 }

/-- BitIter::next from src/leds.rs lines 311-325: on an exhausted mask,
pull the next byte and restart the mask at 128 (most significant bit);
emit whether the masked bit is set and shift the mask right. -/
def bitNext (s : BitIterState) : Option (Bool × BitIterState) :=
  if s.mask = 0 then
    match s.source with
    | [] => none
    | byte :: rest =>
      some (decide (byte.land 128 ≠ 0),
        { source := rest, current_byte := byte, mask := 64 })
  else
    some (decide (s.current_byte.land s.mask ≠ 0), { s with mask := s.mask / 2 })

/-- Each successful BitIter step either consumes a source byte or halves
a nonzero mask, so the pair (source length, mask) drops
lexicographically. -/
theorem bitNext_lex {s : BitIterState} {b : Bool} {s2 : BitIterState}
    (h : bitNext s = some (b, s2)) :
    Prod.Lex (· < ·) (· < ·) (s2.source.length, s2.mask) (s.source.length, s.mask) := by
  unfold bitNext at h
  by_cases hm : s.mask = 0
  · rw [if_pos hm] at h
    cases hsrc : s.source with
    | nil => rw [hsrc] at h; exact absurd h (by simp)
    | cons byte rest =>
      rw [hsrc] at h
      simp only [Option.some.injEq, Prod.mk.injEq] at h
      rw [← h.2]
      apply Prod.Lex.left
      simp [hsrc]
  · rw [if_neg hm] at h
    simp only [Option.some.injEq, Prod.mk.injEq] at h
    rw [← h.2]
    apply Prod.Lex.right
    show s.mask / 2 < s.mask
    omega

/-- The full bit sequence produced by pulling a BitIter until it is
exhausted. -/
def drainBits (s : BitIterState) : List Bool :=
  match h : bitNext s with
  | none => []
  | some (b, s2) => b :: drainBits s2
termination_by (s.source.length, s.mask)
decreasing_by exact bitNext_lex h

end ws28xx

open colors utility

/-- The five Progression operations the C3 claim quantifies over. -/
inductive POp where
  | inc
  | dec
  | setc (v : Nat)
  | cdec
  | cinc
deriving DecidableEq, Repr

/-- Application of a single Progression operation; the checked variants
keep the updated state and drop the report. -/
def applyOp (p : Progression) : POp → Progression
  | POp.inc => p.increment
  | POp.dec => p.decrement
  | POp.setc v => p.set_current v
  | POp.cdec => p.checked_decrement.snd
  | POp.cinc => p.checked_increment.snd

/-- Application of a sequence of Progression operations, first operation
first. -/
def applyOps (ops : List POp) (p : Progression) : Progression :=
  ops.foldl applyOp p

/-- No Progression operation changes the total field. -/
theorem applyOp_total (p : Progression) (op : POp) : (applyOp p op).total = p.total := by
  cases op <;>
    simp [applyOp, Progression.increment, Progression.decrement,
      Progression.set_current, Progression.checked_decrement,
      Progression.checked_increment] <;>
    split <;> rfl

/-- No sequence of Progression operations changes the total field. -/
theorem applyOps_total (ops : List POp) (p : Progression) :
    (applyOps ops p).total = p.total := by
  induction ops generalizing p with
  | nil => rfl
  | cons op rest ih =>
    show (applyOps rest (applyOp p op)).total = p.total
    rw [ih, applyOp_total]

/-- C1: evaluation of Color::color_lerp (src/colors.rs lines 25-43) at a
concrete boundary input. With start color (10, 0, 0), end color
(0, 5, 0) and factor = total = 1, the code returns (0, 251, 246) rather
than the end color (0, 5, 0): the green and blue deltas are computed
from the start color red channel, so g = 5 - 10 + 0 = -5, cast to the
u8 value 251, and b = 0 - 10 + 0 = -10, cast to 246. At factor 0 the
start color is returned intact. -/
theorem C1_lerp_red_channel_defect :
    Color.color_lerp 1 0 1 { r := 10, g := 0, b := 0 } { r := 0, g := 5, b := 0 }
      = { r := 0, g := 251, b := 246 } ∧
    Color.color_lerp 0 0 1 { r := 10, g := 0, b := 0 } { r := 0, g := 5, b := 0 }
      = { r := 10, g := 0, b := 0 } ∧
    Color.color_lerp 1 0 1 { r := 10, g := 0, b := 0 } { r := 0, g := 5, b := 0 }
      ≠ { r := 0, g := 5, b := 0 } := by
  refine ⟨?_, ?_, ?_⟩ <;> decide

/-- C3 counterexample: the private Progression of src/animations.rs
lines 861-877 (cited by the claim) violates the mono invariant. At
total = 0 (which is at most 1) and counter 0, its checked_increment
reports true, while the claim states that checked_increment never
reports a rollover when total is at most 1. -/
theorem C3_anim_checked_increment_true :
    ({ current := 0, total := 0 } : animations.Progression).total ≤ 1 ∧
    (({ current := 0, total := 0 } : animations.Progression).checked_increment).fst
      = true := by
  decide

/-- C3 amended: for the utility::Progression (src/utility.rs
lines 232-329), after any sequence of increment, decrement, set_current,
checked_decrement and checked_increment operations on a state with
total at most 1, get_current returns 0 and checked_increment reports
false. -/
theorem C3_utility_mono_invariant (p : Progression) (ops : List POp)
    (h : p.total ≤ 1) :
    (applyOps ops p).get_current = 0 ∧
    ((applyOps ops p).checked_increment).fst = false := by
  have ht : (applyOps ops p).total ≤ 1 := by rw [applyOps_total]; exact h
  have hmono : (applyOps ops p).is_mono = true := by
    simp [Progression.is_mono, ht]
  constructor
  · simp [Progression.get_current, hmono]
  · simp [Progression.checked_increment, hmono]

/-- C3 witness: the amended mono invariant evaluated on the concrete
Progression with total 1 after an increment, a checked increment and a
set_current. -/
theorem C3_utility_mono_invariant_witness :
    (applyOps [POp.inc, POp.cinc, POp.setc 5] (Progression.new 1)).get_current = 0 ∧
    ((applyOps [POp.inc, POp.cinc, POp.setc 5] (Progression.new 1)).checked_increment).fst
      = false :=
  C3_utility_mono_invariant (Progression.new 1) [POp.inc, POp.cinc, POp.setc 5]
    (by decide)

/-- k-fold application of Progression::increment. -/
def incrementN : Nat → Progression → Progression
  | 0, p => p
  | k + 1, p => (incrementN k p).increment

/-- A run of k successive Progression::checked_increment calls,
collecting the reported booleans in call order together with the final
state. -/
def checkedRun : Nat → Progression → List Bool × Progression
  | 0, p => ([], p)
  | k + 1, p =>
    let (b, q) := p.checked_increment
    let (bs, r) := checkedRun k q
    (b :: bs, r)

/-- On a non-mono Progression, increment adds one to the counter modulo
total and changes nothing else. -/
theorem increment_not_mono (p : Progression) (h1 : 1 < p.total) :
    p.increment = { p with current := (p.current + 1) % p.total } := by
  have : p.is_mono = false := by simp [Progression.is_mono]; omega
  simp [Progression.increment, Progression.peek_next, Progression.up_one, this]

/-- k increments of a non-mono Progression add k to the counter modulo
total and change nothing else. -/
theorem incrementN_spec (k : Nat) (p : Progression) (h1 : 1 < p.total)
    (hc : p.current < p.total) :
    incrementN k p = { p with current := (p.current + k) % p.total } := by
  induction k with
  | zero =>
    show p = { p with current := (p.current + 0) % p.total }
    cases p
    simp_all [Nat.mod_eq_of_lt hc]
  | succ k ih =>
    show (incrementN k p).increment = _
    rw [ih, increment_not_mono _ (by simpa using h1)]
    simp [Nat.mod_add_mod, ← Nat.add_assoc]

/-- The report list of a checked_increment run from a non-mono state:
the i-th call reports whether the counter has just wrapped, that is
whether current + i + 1 is divisible by total; the final state is the
k-fold increment. -/
theorem checkedRun_spec (k : Nat) (p : Progression) (h1 : 1 < p.total)
    (hc : p.current < p.total) :
    (checkedRun k p).fst
      = (List.range k).map (fun i => decide ((p.current + i + 1) % p.total = 0)) ∧
    (checkedRun k p).snd = incrementN k p := by
  induction k generalizing p with
  | zero => exact ⟨rfl, rfl⟩
  | succ k ih =>
    have hmono : p.is_mono = false := by simp [Progression.is_mono]; omega
    have hq : p.checked_increment
        = ((((p.current + 1) % p.total) = 0 : Bool),
           { p with current := (p.current + 1) % p.total }) := by
      simp [Progression.checked_increment, hmono, increment_not_mono p h1]
    have hq2 : ({ p with current := (p.current + 1) % p.total } : Progression).current
        < ({ p with current := (p.current + 1) % p.total } : Progression).total :=
      Nat.mod_lt _ (by omega)
    obtain ⟨ihf, ihs⟩ := ih { p with current := (p.current + 1) % p.total }
      (by simpa using h1) hq2
    constructor
    · show (p.checked_increment.fst :: (checkedRun k p.checked_increment.snd).fst) = _
      rw [hq]
      simp only [ihf]
      rw [List.range_succ_eq_map]
      simp only [List.map_cons, List.map_map]
      congr 1
      apply List.map_congr_left
      intro i _
      simp only [Function.comp_apply, Nat.succ_eq_add_one]
      have harith : ((p.current + 1) % p.total + i + 1) % p.total
          = (p.current + (i + 1) + 1) % p.total := by
        conv_lhs => rw [Nat.add_assoc, Nat.mod_add_mod]
        congr 1
        omega
      rw [harith]
    · show (checkedRun k p.checked_increment.snd).snd = _
      rw [hq]
      simp only [ihs]
      show incrementN k _ = (incrementN k p).increment
      rw [incrementN_spec k _ (by simpa using h1) hq2,
        incrementN_spec k p h1 hc, increment_not_mono _ (by simpa using h1)]
      simp only []
      congr 1
      rw [Nat.mod_add_mod, Nat.mod_add_mod]
      congr 1
      omega

/-- Within a window of total consecutive values starting above 0, exactly
one is divisible by total. -/
theorem wrap_index_unique (c T i : Nat) (h1 : 1 < T) (hc : c < T) (hi : i < T) :
    (c + i + 1) % T = 0 ↔ i = T - 1 - c := by
  constructor
  · intro h
    have hdvd : T ∣ (c + i + 1) := Nat.dvd_of_mod_eq_zero h
    have hle : T ≤ c + i + 1 := Nat.le_of_dvd (by omega) hdvd
    have hdvd2 : T ∣ (c + i + 1 - T) := (Nat.dvd_sub' hdvd (Nat.dvd_refl T))
    have hz : c + i + 1 - T = 0 := Nat.eq_zero_of_dvd_of_lt hdvd2 (by omega)
    omega
  · intro h
    have : c + i + 1 = T := by omega
    rw [this, Nat.mod_self]

/-- Counting true over the indicator of a single index j in range n gives
exactly one. -/
theorem count_true_map_decide_eq (n j : Nat) (hj : j < n) :
    ((List.range n).map (fun i => decide (i = j))).count true = 1 := by
  induction n with
  | zero => omega
  | succ n ih =>
    rw [List.range_succ, List.map_append, List.count_append]
    by_cases h : j < n
    · rw [ih h]
      have hne : decide (n = j) = false := by simp; omega
      simp [hne]
    · have hjn : j = n := by omega
      subst hjn
      have hzero : ((List.range j).map (fun i => decide (i = j))).count true = 0 := by
        rw [List.count_eq_zero]
        intro hmem
        rw [List.mem_map] at hmem
        obtain ⟨i, hi, hdec⟩ := hmem
        rw [List.mem_range] at hi
        simp at hdec
        omega
      simp [hzero]

/-- C4: for every utility Progression with total T greater than 1 and any
reachable state (counter below total), exactly T increments return
get_current to its starting value, and a run of T consecutive
checked_increment calls reports true exactly once, namely on the call
after which the counter reads 0. -/
theorem C4_progression_full_lap (p : Progression) (h1 : 1 < p.total)
    (hc : p.current < p.total) :
    (incrementN p.total p).get_current = p.get_current ∧
    (checkedRun p.total p).fst.count true = 1 ∧
    (checkedRun p.total p).fst
      = (List.range p.total).map (fun i => decide ((incrementN (i + 1) p).current = 0)) := by
  refine ⟨?_, ?_, ?_⟩
  · rw [incrementN_spec p.total p h1 hc]
    have harith : (p.current + p.total) % p.total = p.current := by
      rw [Nat.add_mod_right]
      exact Nat.mod_eq_of_lt hc
    rw [harith]
  · obtain ⟨hf, -⟩ := checkedRun_spec p.total p h1 hc
    rw [hf]
    have hcongr : ∀ i ∈ List.range p.total,
        decide ((p.current + i + 1) % p.total = 0)
          = decide (i = p.total - 1 - p.current) := by
      intro i hi
      rw [List.mem_range] at hi
      simp only [decide_eq_decide]
      exact wrap_index_unique p.current p.total i h1 hc hi
    rw [List.map_congr_left hcongr]
    exact count_true_map_decide_eq p.total (p.total - 1 - p.current) (by omega)
  · obtain ⟨hf, -⟩ := checkedRun_spec p.total p h1 hc
    rw [hf]
    apply List.map_congr_left
    intro i hi
    rw [List.mem_range] at hi
    rw [incrementN_spec (i + 1) p h1 hc]
    simp only [decide_eq_decide]
    have harith : p.current + (i + 1) = p.current + i + 1 := by omega
    show _ ↔ (p.current + (i + 1)) % p.total = 0
    rw [harith]

/-- C4 witness: the full-lap property evaluated on the concrete
Progression with total 3 starting at counter 0. -/
theorem C4_progression_full_lap_witness :
    (incrementN 3 { current := 0, total := 3, is_forward := true }).get_current
      = ({ current := 0, total := 3, is_forward := true } : Progression).get_current ∧
    (checkedRun 3 { current := 0, total := 3, is_forward := true }).fst.count true = 1 ∧
    (checkedRun 3 { current := 0, total := 3, is_forward := true }).fst
      = (List.range 3).map (fun i => decide
          ((incrementN (i + 1) { current := 0, total := 3, is_forward := true }).current = 0)) :=
  C4_progression_full_lap { current := 0, total := 3, is_forward := true }
    (by decide) (by decide)

open trigger

/-- The mode init functions mutate only the shared rainbows and frame
counter of the collection, never its stored triggers or its capacity. -/
theorem runInit_collection (k : InitKind) (t : Trigger) (c : TriggerCollection)
    (rand : Nat) :
    ((TriggerCollection.runInit k t c rand).snd).triggers = c.triggers ∧
    ((TriggerCollection.runInit k t c rand).snd).cap = c.cap := by
  cases k <;>
    simp [TriggerCollection.runInit, TriggerCollection.advance_rainbow_color]

/-- The mode init functions never touch the frame counter of the new
trigger. -/
theorem runInit_frames (k : InitKind) (t : Trigger) (c : TriggerCollection)
    (rand : Nat) :
    ((TriggerCollection.runInit k t c rand).fst).frames = t.frames := by
  cases k <;> rfl

/-- C5: adding a trigger to a TriggerCollection that already holds its
maximum number of triggers leaves the stored triggers unchanged; the
embedding of add_trigger is a total function (no panic, no blocking)
and returns no error value, matching the discarded try_push result of
src/trigger.rs line 143. -/
theorem C5_add_trigger_at_capacity (c : TriggerCollection) (params : Parameters)
    (frame_rate rand : Nat) (hfull : c.triggers.length = c.cap) :
    (TriggerCollection.add_trigger c params frame_rate rand).triggers = c.triggers ∧
    (TriggerCollection.add_trigger c params frame_rate rand).triggers.length = c.cap := by
  have main :
      (TriggerCollection.add_trigger c params frame_rate rand).triggers = c.triggers := by
    unfold TriggerCollection.add_trigger
    cases hb : params.mode.get_behavior.fst with
    | none =>
      simp only [hb]
      rw [if_neg (by omega)]
    | some k =>
      simp only [hb]
      obtain ⟨h1, h2⟩ := runInit_collection k
        (Trigger.new params c.current_rainbow_color frame_rate) c rand
      rw [if_neg (by rw [h1, h2]; omega)]
      exact h1
  exact ⟨main, by rw [main, hfull]⟩

/-- C5 witness: a collection of capacity 0 (hence already full) with a
Flash trigger parameter set. -/
theorem C5_add_trigger_at_capacity_witness :
    (TriggerCollection.add_trigger (TriggerCollection.new
        { rainbow := [C_RED], is_rainbow_forward := true, duration_ns := 0 } 1 0)
      { mode := Mode.Flash, direction := Direction.Stopped, fade_in_time_ns := 0,
        fade_out_time_ns := 0, starting_offset := 0, pixels_per_pixel_group := 1 }
      1 0).triggers
      = (TriggerCollection.new
        { rainbow := [C_RED], is_rainbow_forward := true, duration_ns := 0 } 1 0).triggers ∧
    (TriggerCollection.add_trigger (TriggerCollection.new
        { rainbow := [C_RED], is_rainbow_forward := true, duration_ns := 0 } 1 0)
      { mode := Mode.Flash, direction := Direction.Stopped, fade_in_time_ns := 0,
        fade_out_time_ns := 0, starting_offset := 0, pixels_per_pixel_group := 1 }
      1 0).triggers.length
      = (TriggerCollection.new
        { rainbow := [C_RED], is_rainbow_forward := true, duration_ns := 0 } 1 0).cap :=
  C5_add_trigger_at_capacity _ _ 1 0 (by decide)

/-- The trigger-state part of Trigger::update: the frame counter
increments and nothing else changes (none of the closed-set updaters
mutates the trigger). -/
def tick (t : Trigger) : Trigger := { t with frames := t.frames.increment }

/-- The trigger-list part of one TriggerCollection::update: every
trigger ticks, then the expired ones are dropped. -/
def updateList (l : List Trigger) : List Trigger :=
  (l.map tick).filter TriggerCollection.retains

/-- k-fold application of the trigger-list update. -/
def updateListN : Nat → List Trigger → List Trigger
  | 0, l => l
  | k + 1, l => updateListN k (updateList l)

/-- k-fold application of TriggerCollection::update, feeding the updates
the stream of per-frame segments painted by the lower layers. -/
def iterateUpdate : Nat → TriggerCollection → (Nat → List Color) → TriggerCollection
  | 0, c, _ => c
  | k + 1, c, segs =>
    iterateUpdate k (TriggerCollection.update c (segs 0)).fst (fun i => segs (i + 1))

/-- The trigger components returned by the per-trigger update loop are
the ticked triggers, independent of the segment. -/
theorem updateEach_fst (l : List Trigger) (seg : List Color) :
    (TriggerCollection.updateEach l seg).fst = l.map tick := by
  induction l generalizing seg with
  | nil => rfl
  | cons t rest ih =>
    simp [TriggerCollection.updateEach, Trigger.update, tick, ih]

/-- The stored triggers after one TriggerCollection::update are exactly
the trigger-list update of the stored triggers. -/
theorem update_fst_triggers (c : TriggerCollection) (seg : List Color) :
    ((TriggerCollection.update c seg).fst).triggers = updateList c.triggers := by
  simp [TriggerCollection.update, updateList, updateEach_fst]

/-- The stored triggers after k updates are the k-fold trigger-list
update, independent of the segment stream. -/
theorem iterate_triggers (k : Nat) (c : TriggerCollection) (segs : Nat → List Color) :
    (iterateUpdate k c segs).triggers = updateListN k c.triggers := by
  induction k generalizing c segs with
  | zero => rfl
  | succ k ih =>
    show (iterateUpdate k (TriggerCollection.update c (segs 0)).fst _).triggers = _
    rw [ih, update_fst_triggers]
    rfl

/-- The trigger-list update distributes over list append. -/
theorem updateList_append (a b : List Trigger) :
    updateList (a ++ b) = updateList a ++ updateList b := by
  simp [updateList]

/-- The k-fold trigger-list update distributes over list append. -/
theorem updateListN_append (k : Nat) (a b : List Trigger) :
    updateListN k (a ++ b) = updateListN k a ++ updateListN k b := by
  induction k generalizing a b with
  | zero => rfl
  | succ k ih =>
    show updateListN k (updateList (a ++ b)) = _
    rw [updateList_append, ih]
    rfl

/-- The k-fold trigger-list update of the empty list is empty. -/
theorem updateListN_nil (k : Nat) : updateListN k [] = [] := by
  induction k with
  | zero => rfl
  | succ k ih => exact ih

/-- On a non-mono forward Progression, get_current is the raw counter. -/
theorem get_current_forward (p : Progression) (h : 1 < p.total)
    (hf : p.is_forward = true) : p.get_current = p.current := by
  have hm : p.is_mono = false := by simp [Progression.is_mono]; omega
  simp [Progression.get_current, hm, hf]

/-- Lifecycle of a single forward trigger whose counter has not yet
reached its terminal frame: it survives exactly until the counter would
reach total - 1, with the counter advancing by one per update, and the
list is empty from then on. -/
theorem single_trigger_life (j : Nat) (t : Trigger)
    (hT : 2 ≤ t.frames.total) (hfwd : t.frames.is_forward = true)
    (hcur : t.frames.current < t.frames.total - 1) :
    (j < t.frames.total - 1 - t.frames.current →
      updateListN j [t]
        = [{ t with frames := { t.frames with current := t.frames.current + j } }]) ∧
    (t.frames.total - 1 - t.frames.current ≤ j → updateListN j [t] = []) := by
  induction j generalizing t with
  | zero =>
    constructor
    · intro _
      show [t] = _
      rw [List.cons.injEq]
      refine ⟨?_, rfl⟩
      congr 1
    · intro hj
      omega
  | succ j ih =>
    have hmono : t.frames.is_mono = false := by
      simp [Progression.is_mono]
      omega
    have htick : tick t
        = { t with frames := { t.frames with current := t.frames.current + 1 } } := by
      unfold tick
      rw [increment_not_mono t.frames (by omega)]
      congr 2
      exact Nat.mod_eq_of_lt (by omega)
    have hone : updateList [t]
        = if t.frames.current + 1 < t.frames.total - 1
          then [{ t with frames := { t.frames with current := t.frames.current + 1 } }]
          else [] := by
      unfold updateList
      rw [List.map_singleton, htick]
      by_cases hs : t.frames.current + 1 < t.frames.total - 1
      · rw [if_pos hs]
        apply List.filter_eq_self.mpr
        intro u hu
        rw [List.mem_singleton] at hu
        subst hu
        simp only [TriggerCollection.retains]
        rw [get_current_forward _ (by simp; omega) (by simpa using hfwd)]
        simp only []
        simp
        omega
      · rw [if_neg hs]
        apply List.filter_eq_nil_iff.mpr
        intro u hu
        rw [List.mem_singleton] at hu
        subst hu
        simp only [TriggerCollection.retains]
        rw [get_current_forward _ (by simp; omega) (by simpa using hfwd)]
        simp only []
        simp
        omega
    constructor
    · intro hj
      show updateListN j (updateList [t]) = _
      rw [hone, if_pos (by omega)]
      obtain ⟨ih1, -⟩ := ih { t with frames := { t.frames with current := t.frames.current + 1 } }
        (by simpa using hT) (by simpa using hfwd) (by simp; omega)
      rw [ih1 (by simp; omega)]
      rw [List.cons.injEq]
      refine ⟨?_, rfl⟩
      congr 2
      simp
      omega
    · intro hj
      show updateListN j (updateList [t]) = _
      rw [hone]
      by_cases hs : t.frames.current + 1 < t.frames.total - 1
      · rw [if_pos hs]
        obtain ⟨-, ih2⟩ := ih { t with frames := { t.frames with current := t.frames.current + 1 } }
          (by simpa using hT) (by simpa using hfwd) (by simp; omega)
        exact ih2 (by simp; omega)
      · rw [if_neg hs]
        exact updateListN_nil j

/-- When the collection has room, add_trigger appends exactly one new
trigger, whose frame counter is freshly constructed from the conversion
of the total (fade-in plus fade-out) duration; the mode init functions
never change the frame counter. -/
theorem add_trigger_triggers (c : TriggerCollection) (params : Parameters)
    (frame_rate rand : Nat) (hroom : c.triggers.length < c.cap) :
    ∃ t0, (TriggerCollection.add_trigger c params frame_rate rand).triggers
        = c.triggers ++ [t0] ∧
      t0.frames = Progression.new
        (convert_ns_to_frames (params.fade_in_time_ns + params.fade_out_time_ns)
          frame_rate) := by
  unfold TriggerCollection.add_trigger
  cases hb : params.mode.get_behavior.fst with
  | none =>
    refine ⟨{ Trigger.new params c.current_rainbow_color frame_rate with
      updater := params.mode.get_behavior.snd }, ?_, ?_⟩
    · simp only [hb]
      rw [if_pos hroom]
    · rfl
  | some k =>
    obtain ⟨h1, h2⟩ := runInit_collection k
      (Trigger.new params c.current_rainbow_color frame_rate) c rand
    refine ⟨{ (TriggerCollection.runInit k
        (Trigger.new params c.current_rainbow_color frame_rate) c rand).fst with
      updater := params.mode.get_behavior.snd }, ?_, ?_⟩
    · simp only [hb]
      rw [if_pos (by rw [h1, h2]; exact hroom)]
      rw [h1]
    · show ({ (TriggerCollection.runInit k
        (Trigger.new params c.current_rainbow_color frame_rate) c rand).fst with
          updater := params.mode.get_behavior.snd } : Trigger).frames = _
      simp only []
      rw [runInit_frames]
      rfl

/-- C2 counterexample: with frame rate 1 Hz and fade times of 1.5 s each,
the fade-in and fade-out times convert to 1 frame each
(F_in = F_out = 1, so F_in + F_out = 2 and the claim predicts absence
after F_in + F_out - 1 = 1 update), but Trigger::new converts the summed
duration, 3 s, to 3 frames, and after 1 update the trigger is still
stored. -/
theorem C2_rounding_counterexample :
    convert_ns_to_frames 1500000000 1 = 1 ∧
    convert_ns_to_frames (1500000000 + 1500000000) 1 = 3 ∧
    (iterateUpdate 1
      (TriggerCollection.add_trigger
        (TriggerCollection.new
          { rainbow := [C_RED], is_rainbow_forward := true, duration_ns := 0 } 1 10)
        { mode := Mode.Flash, direction := Direction.Stopped,
          fade_in_time_ns := 1500000000, fade_out_time_ns := 1500000000,
          starting_offset := 0, pixels_per_pixel_group := 1 }
        1 0)
      (fun _ => [])).triggers.length = 1 := by
  refine ⟨by decide, by decide, by decide⟩

/-- C2 amended: after add_trigger succeeds, the new trigger contributes
to the collection for exactly T - 1 updates, where T is the frame
conversion of the summed fade-in and fade-out durations (T at least 2),
and is absent thereafter; and one update retains a trigger exactly when
its ticked frame counter has not reached its terminal frame total - 1. -/
theorem C2_trigger_lifecycle (c : TriggerCollection) (params : Parameters)
    (frame_rate rand : Nat) (segs : Nat → List Color)
    (hT : 2 ≤ convert_ns_to_frames (params.fade_in_time_ns + params.fade_out_time_ns)
      frame_rate)
    (hroom : c.triggers.length < c.cap) :
    (∀ k, k < convert_ns_to_frames (params.fade_in_time_ns + params.fade_out_time_ns)
        frame_rate - 1 →
      (iterateUpdate k (TriggerCollection.add_trigger c params frame_rate rand)
        segs).triggers.length
        = (updateListN k c.triggers).length + 1) ∧
    (∀ k, convert_ns_to_frames (params.fade_in_time_ns + params.fade_out_time_ns)
        frame_rate - 1 ≤ k →
      (iterateUpdate k (TriggerCollection.add_trigger c params frame_rate rand)
        segs).triggers
        = updateListN k c.triggers) ∧
    (∀ (d : TriggerCollection) (seg : List Color) (u : Trigger),
      u ∈ ((TriggerCollection.update d seg).fst).triggers ↔
        (∃ t, t ∈ d.triggers ∧ tick t = u) ∧
          u.frames.get_current < u.frames.total - 1) := by
  obtain ⟨t0, hsplit, hframes⟩ := add_trigger_triggers c params frame_rate rand hroom
  have ht0T : t0.frames.total
      = convert_ns_to_frames (params.fade_in_time_ns + params.fade_out_time_ns)
        frame_rate := by rw [hframes]; rfl
  have ht0c : t0.frames.current = 0 := by rw [hframes]; rfl
  have ht0f : t0.frames.is_forward = true := by rw [hframes]; rfl
  refine ⟨?_, ?_, ?_⟩
  · intro k hk
    rw [iterate_triggers, hsplit, updateListN_append]
    obtain ⟨h1, -⟩ := single_trigger_life k t0 (by omega) ht0f (by omega)
    rw [h1 (by omega)]
    simp
  · intro k hk
    rw [iterate_triggers, hsplit, updateListN_append]
    obtain ⟨-, h2⟩ := single_trigger_life k t0 (by omega) ht0f (by omega)
    rw [h2 (by omega)]
    simp
  · intro d seg u
    rw [update_fst_triggers]
    unfold updateList
    rw [List.mem_filter, List.mem_map]
    simp [TriggerCollection.retains]

/-- Concrete collection used by the C2 witness: frame rate 1 Hz, one-color
trigger rainbow, capacity 10, no live triggers. -/
def c2Coll : TriggerCollection :=
  TriggerCollection.new
    { rainbow := [C_RED], is_rainbow_forward := true, duration_ns := 0 } 1 10

/-- Concrete parameters used by the C2 witness: a Flash with 1 s fade-in
and 1 s fade-out, so the summed duration converts to 2 frames at 1 Hz. -/
def c2Params : Parameters :=
  { mode := Mode.Flash, direction := Direction.Stopped,
    fade_in_time_ns := 1000000000, fade_out_time_ns := 1000000000,
    starting_offset := 0, pixels_per_pixel_group := 1 }

/-- C2 witness: the lifecycle theorem evaluated on the concrete
collection and Flash parameters (summed duration 2 frames at 1 Hz):
after 0 updates the added trigger contributes one entry, after 1 update
it is gone, and the retention iff is instantiated at the fresh Flash
trigger value. -/
theorem C2_trigger_lifecycle_witness :
    (iterateUpdate 0 (TriggerCollection.add_trigger c2Coll c2Params 1 0)
        (fun _ => [])).triggers.length
      = (updateListN 0 c2Coll.triggers).length + 1 ∧
    (iterateUpdate 1 (TriggerCollection.add_trigger c2Coll c2Params 1 0)
        (fun _ => [])).triggers
      = updateListN 1 c2Coll.triggers ∧
    (Trigger.new c2Params C_RED 1 ∈ ((TriggerCollection.update c2Coll []).fst).triggers ↔
      (∃ t, t ∈ c2Coll.triggers ∧ tick t = Trigger.new c2Params C_RED 1) ∧
        (Trigger.new c2Params C_RED 1).frames.get_current
          < (Trigger.new c2Params C_RED 1).frames.total - 1) := by
  obtain ⟨h1, h2, h3⟩ :=
    C2_trigger_lifecycle c2Coll c2Params 1 0 (fun _ => []) (by decide) (by decide)
  exact ⟨h1 0 (by decide), h2 1 (by decide), h3 c2Coll [] (Trigger.new c2Params C_RED 1)⟩

/-- C6 counterexample: on a zero-length palette the fill_rainbow distance
computation divides by zero and the call halts (the max(1) guard of
src/animations.rs line 612 applies to subdivisions, not to the palette
length), while the same call with a one-color palette succeeds; the
claim that the length-0 case is treated as length 1 and never divides by
zero is therefore false. -/
theorem C6_zero_length_palette_halts :
    animations.fill_rainbow [0] [0] 1 0 [] = none ∧
    (animations.fill_rainbow [0] [0] 1 0 [C_RED]).isSome = true := by
  refine ⟨by decide, by decide⟩

/-- C6 amended: the subdivision factor is guarded by max(1), so
fill_rainbow performs no division by zero whenever the palette is
non-empty and the total color count (palette length times guarded
subdivisions) does not exceed MAX_OFFSET; a zero-length palette divides
by zero. -/
theorem C6_fill_rainbow_guard (led_position_array translation_array : List Nat)
    (subdivisions start_offset : Nat) (rainbow : List Color)
    (hlen : 1 ≤ rainbow.length)
    (hbound : rainbow.length * max subdivisions 1 ≤ MAX_OFFSET) :
    (animations.fill_rainbow led_position_array translation_array subdivisions
      start_offset rainbow).isSome = true := by
  unfold animations.fill_rainbow
  have hmax : 1 ≤ max subdivisions 1 := Nat.le_max_right _ _
  have htot : ¬(rainbow.length * max subdivisions 1 = 0) := by
    have := Nat.mul_pos (by omega : 0 < rainbow.length) (by omega : 0 < max subdivisions 1)
    omega
  rw [if_neg htot]
  have hdist : ¬(MAX_OFFSET / (rainbow.length * max subdivisions 1) = 0) := by
    have := Nat.div_pos hbound (by omega : 0 < rainbow.length * max subdivisions 1)
    omega
  rw [if_neg hdist]
  rfl

/-- C6 witness: the guarded fill on a two-color palette spread over two
LEDs. -/
theorem C6_fill_rainbow_guard_witness :
    (animations.fill_rainbow [0, 32767] [0, 1] 1 0 [C_RED, C_BLUE]).isSome = true :=
  C6_fill_rainbow_guard [0, 32767] [0, 1] 1 0 [C_RED, C_BLUE] (by decide) (by decide)

/-- The concrete background state of the C7 counterexample: offset 0,
duration counter at frame 0 of 2, no pending trigger. -/
def c7State : animations.AnimationState :=
  { offset := 0, frames := { current := 0, total := 2 },
    step_frames := { current := 0, total := 0 },
    current_rainbow_color_index := 0, has_been_triggered := false,
    marquee_position_toggle := false }

/-- C7 counterexample: on a 2-LED segment with the two-color palette
red/blue, duration 2 frames, offset 0 and frame counter 0,
update_bg_fill_rainbow_rotate increments the frame counter before
computing the rotation, fills at offset 65535 * 1 / 2 = 32767, and
writes a different buffer than update_bg_fill_rainbow at the same
offset (LED 0 becomes blue instead of red). -/
theorem C7_rotate_differs_at_frame0 :
    (animations.update_bg_fill_rainbow_rotate [0, 32767] [0, 1] 1 [C_RED, C_BLUE]
        c7State 0).map Prod.snd
      ≠ (animations.update_bg_fill_rainbow [0, 32767] [0, 1] 1 [C_RED, C_BLUE]
        c7State 0).map Prod.snd := by
  decide

/-- C7 amended: with offset 0, no pending trigger and a duration total of
0 frames (the static configuration, where the counter stays at frame 0
and the computed rotation shift is zero), one update of
update_bg_fill_rainbow_rotate writes exactly the same color-buffer
contents as one update of update_bg_fill_rainbow; with a nonzero
duration total the rotate update increments the counter first and fills
at a shifted offset. -/
theorem C7_rotate_matches_fill_when_static
    (led_position_array translation_array : List Nat) (subdivisions : Nat)
    (rainbow : List Color) (st : animations.AnimationState) (rand : Nat)
    (hoff : st.offset = 0) (htot : st.frames.total = 0)
    (htrig : st.has_been_triggered = false) :
    (animations.update_bg_fill_rainbow_rotate led_position_array translation_array
        subdivisions rainbow st rand).map Prod.snd
      = (animations.update_bg_fill_rainbow led_position_array translation_array
        subdivisions rainbow st rand).map Prod.snd := by
  obtain ⟨off, fr, sf, cri, hbt, mpt⟩ := st
  dsimp only at hoff htot htrig
  subst hoff htrig
  obtain ⟨cur, tot⟩ := fr
  dsimp only at htot
  subst htot
  unfold animations.update_bg_fill_rainbow_rotate animations.update_bg_fill_rainbow
  simp [animations.Progression.increment]

/-- The static background state of the C7 witness: duration total 0. -/
def c7Static : animations.AnimationState :=
  { offset := 0, frames := { current := 0, total := 0 },
    step_frames := { current := 0, total := 0 },
    current_rainbow_color_index := 0, has_been_triggered := false,
    marquee_position_toggle := false }

/-- C7 witness: the static-case equality evaluated on the 2-LED red/blue
configuration. -/
theorem C7_rotate_matches_fill_when_static_witness :
    (animations.update_bg_fill_rainbow_rotate [0, 32767] [0, 1] 1 [C_RED, C_BLUE]
        c7Static 0).map Prod.snd
      = (animations.update_bg_fill_rainbow [0, 32767] [0, 1] 1 [C_RED, C_BLUE]
        c7Static 0).map Prod.snd :=
  C7_rotate_matches_fill_when_static [0, 32767] [0, 1] 1 [C_RED, C_BLUE] c7Static 0
    rfl rfl rfl

open ws28xx

/-- The total led count of a cons cell. -/
theorem totalLeds_cons (s : PhysicalStrip) (rest : List PhysicalStrip) :
    totalLeds (s :: rest) = s.led_count + totalLeds rest := by
  simp [totalLeds]

/-- The running start indices are monotone in adjacent steps. -/
theorem ledsBefore_le_succ (strips : List PhysicalStrip) (k : Nat) :
    ledsBefore strips k ≤ ledsBefore strips (k + 1) := by
  induction strips generalizing k with
  | nil => cases k <;> simp [ledsBefore]
  | cons s rest ih =>
    cases k with
    | zero => simp [ledsBefore]
    | succ k =>
      show s.led_count + ledsBefore rest k ≤ s.led_count + ledsBefore rest (k + 1)
      exact Nat.add_le_add_left (ih k) _

/-- The running start indices are monotone. -/
theorem ledsBefore_mono (strips : List PhysicalStrip) {a b : Nat} (h : a ≤ b) :
    ledsBefore strips a ≤ ledsBefore strips b := by
  induction b with
  | zero =>
    have : a = 0 := by omega
    subst this
    exact Nat.le_refl _
  | succ b ih =>
    rcases Nat.eq_or_lt_of_le h with heq | hlt
    · subst heq; exact Nat.le_refl _
    · exact Nat.le_trans (ih (by omega)) (ledsBefore_le_succ strips b)

/-- The start index of strip k + 1 is the start index of strip k plus its
led count. -/
theorem ledsBefore_step (strips : List PhysicalStrip) (k : Nat) (sk : PhysicalStrip)
    (h : strips[k]? = some sk) :
    ledsBefore strips (k + 1) = ledsBefore strips k + sk.led_count := by
  induction strips generalizing k with
  | nil => simp at h
  | cons s rest ih =>
    cases k with
    | zero =>
      simp at h
      subst h
      show s.led_count + ledsBefore rest 0 = 0 + s.led_count
      simp [ledsBefore]
    | succ k =>
      simp at h
      show s.led_count + ledsBefore rest (k + 1) = s.led_count + ledsBefore rest k + _
      rw [ih k h]
      omega

/-- Every running start index is bounded by the total led count. -/
theorem ledsBefore_le_total (strips : List PhysicalStrip) (k : Nat) :
    ledsBefore strips k ≤ totalLeds strips := by
  induction strips generalizing k with
  | nil => cases k <;> simp [ledsBefore, totalLeds]
  | cons s rest ih =>
    cases k with
    | zero => simp [ledsBefore]
    | succ k =>
      rw [totalLeds_cons]
      show s.led_count + ledsBefore rest k ≤ _
      exact Nat.add_le_add_left (ih k) _

/-- The belongs_to loop fails exactly when the index lies at or beyond
the end of the accumulated strips. -/
theorem belongsToAux_none_iff (strips : List PhysicalStrip) (index start : Nat)
    (h : start ≤ index) :
    belongsToAux strips index start = none ↔ start + totalLeds strips ≤ index := by
  induction strips generalizing start with
  | nil =>
    simp [belongsToAux, totalLeds]
    omega
  | cons s rest ih =>
    show (if index < start + s.led_count then _ else belongsToAux rest index _) = none ↔ _
    rw [totalLeds_cons]
    by_cases hin : index < start + s.led_count
    · rw [if_pos hin]
      simp
      omega
    · rw [if_neg hin]
      rw [ih (start + s.led_count) (by omega)]
      omega

/-- A successful belongs_to lookup returns a strip at a definite list
position, whose start index is the accumulated start plus the running
start of that position, and whose interval contains the index. -/
theorem belongsToAux_some_spec (strips : List PhysicalStrip) (index start : Nat)
    (s : PhysicalStrip) (st : Nat) (h : start ≤ index)
    (hs : belongsToAux strips index start = some (s, st)) :
    ∃ j, j < strips.length ∧ strips[j]? = some s ∧
      st = start + ledsBefore strips j ∧ st ≤ index ∧ index < st + s.led_count := by
  induction strips generalizing start with
  | nil => simp [belongsToAux] at hs
  | cons s0 rest ih =>
    rw [show belongsToAux (s0 :: rest) index start
      = if index < start + s0.led_count then some (s0, start)
        else belongsToAux rest index (start + s0.led_count) from rfl] at hs
    by_cases hin : index < start + s0.led_count
    · rw [if_pos hin] at hs
      simp at hs
      obtain ⟨hs1, hs2⟩ := hs
      subst hs1
      subst hs2
      exact ⟨0, by simp, by simp, by simp [ledsBefore], h, hin⟩
    · rw [if_neg hin] at hs
      obtain ⟨j, hj1, hj2, hj3, hj4, hj5⟩ := ih (start + s0.led_count) (by omega) hs
      refine ⟨j + 1, by simpa using hj1, by simpa using hj2, ?_, hj4, hj5⟩
      show st = start + (s0.led_count + ledsBefore rest j)
      omega

/-- Two strip positions whose intervals both contain the same index are
equal: the ownership intervals are pairwise disjoint. -/
theorem owner_unique (strips : List PhysicalStrip) (index : Nat)
    (j k : Nat) (sj sk : PhysicalStrip)
    (hj : strips[j]? = some sj) (hk : strips[k]? = some sk)
    (hj1 : ledsBefore strips j ≤ index) (hj2 : index < ledsBefore strips j + sj.led_count)
    (hk1 : ledsBefore strips k ≤ index) (hk2 : index < ledsBefore strips k + sk.led_count) :
    k = j := by
  rcases Nat.lt_trichotomy k j with hlt | heq | hgt
  · exfalso
    have hstep := ledsBefore_step strips k sk hk
    have hmono := ledsBefore_mono strips (show k + 1 ≤ j by omega)
    omega
  · exact heq
  · exfalso
    have hstep := ledsBefore_step strips j sj hj
    have hmono := ledsBefore_mono strips (show j + 1 ≤ k by omega)
    omega

/-- When the buffers have the invariant lengths and the index is in
range, set_color_at_index succeeds: the lookup finds an owning strip and
all three byte stores are in bounds, including the reversed-strip
correction. -/
theorem set_color_at_index_isSome (strips : List PhysicalStrip)
    (color_buffer : List Color) (byte_buffer : List Nat) (index : Nat) (color : Color)
    (hcb : color_buffer.length = totalLeds strips)
    (hbb : byte_buffer.length = 3 * totalLeds strips)
    (hlt : index < totalLeds strips) :
    (set_color_at_index strips color_buffer byte_buffer index color).isSome = true := by
  unfold set_color_at_index
  rw [if_pos (by omega)]
  have hbs : ∃ p, belongs_to strips index = some p := by
    cases hb : belongs_to strips index with
    | none =>
      rw [belongs_to, belongsToAux_none_iff strips index 0 (Nat.zero_le _)] at hb
      omega
    | some p => exact ⟨p, rfl⟩
  obtain ⟨⟨s, st⟩, hb⟩ := hbs
  simp only [hb]
  obtain ⟨j, hj1, hj2, hj3, hj4, hj5⟩ :=
    belongsToAux_some_spec strips index 0 s st (Nat.zero_le _) hb
  have hstep := ledsBefore_step strips j s hj2
  have htot := ledsBefore_le_total strips (j + 1)
  have hbound : (if s.reversed then st + (s.led_count - 1 - (index - st)) else index)
      < totalLeds strips := by
    by_cases hrev : s.reversed
    · rw [if_pos hrev]
      omega
    · rw [if_neg hrev]
      omega
  rw [if_pos (by rw [hbb]; omega)]
  rfl

/-- C9: belongs_to (and hence set_color_at_index, under the system
invariant that the color buffer holds one entry and the byte buffer
three bytes per led) halts exactly on indices at or beyond the sum of
the physical strip led counts; every in-range index is owned by a unique
strip, returned together with its starting index in the logical
buffer. -/
theorem C9_belongs_to_fatal_iff (strips : List PhysicalStrip) (index : Nat) :
    (belongs_to strips index = none ↔ totalLeds strips ≤ index) ∧
    (∀ s st, belongs_to strips index = some (s, st) →
      ∃ j, j < strips.length ∧ strips[j]? = some s ∧ st = ledsBefore strips j ∧
        st ≤ index ∧ index < st + s.led_count ∧
        ∀ k sk, strips[k]? = some sk → ledsBefore strips k ≤ index →
          index < ledsBefore strips k + sk.led_count → k = j) ∧
    (∀ (color_buffer : List Color) (byte_buffer : List Nat) (color : Color),
      color_buffer.length = totalLeds strips →
      byte_buffer.length = 3 * totalLeds strips →
      (set_color_at_index strips color_buffer byte_buffer index color = none ↔
        totalLeds strips ≤ index)) := by
  refine ⟨?_, ?_, ?_⟩
  · rw [belongs_to, belongsToAux_none_iff strips index 0 (Nat.zero_le _)]
    omega
  · intro s st hsome
    obtain ⟨j, hj1, hj2, hj3, hj4, hj5⟩ :=
      belongsToAux_some_spec strips index 0 s st (Nat.zero_le _) hsome
    have hj3z : st = ledsBefore strips j := by omega
    refine ⟨j, hj1, hj2, hj3z, hj4, hj5, ?_⟩
    intro k sk hk hk1 hk2
    exact owner_unique strips index j k s sk hj2 hk (by omega) (by omega) hk1 hk2
  · intro color_buffer byte_buffer color hcb hbb
    constructor
    · intro hnone
      by_contra hge
      have hsome := set_color_at_index_isSome strips color_buffer byte_buffer index
        color hcb hbb (by omega)
      rw [hnone] at hsome
      simp at hsome
    · intro hge
      unfold set_color_at_index
      rw [if_neg (by omega)]

/-- The two-strip geometry of the C9 witness: 2 leds then 3 leds, the
second strip reversed with BRG channel order. -/
def c9Strips : List PhysicalStrip :=
  [{ led_count := 2, reversed := false, color_order := ColorOrder.RGB,
     strip_timings := { zero_h := 0, one_h := 0, full_cycle := 0 } },
   { led_count := 3, reversed := true, color_order := ColorOrder.BRG,
     strip_timings := { zero_h := 0, one_h := 0, full_cycle := 0 } }]

/-- C9 witness: on the two-strip geometry with invariant-sized buffers,
writing red at index 5 (one past the 5-led total) halts, as the iff
requires. -/
theorem C9_belongs_to_fatal_iff_witness :
    set_color_at_index c9Strips (List.replicate 5 C_OFF) (List.replicate 15 0) 5 C_RED
        = none
      ↔ totalLeds c9Strips ≤ 5 :=
  (C9_belongs_to_fatal_iff c9Strips 5).2.2 (List.replicate 5 C_OFF)
    (List.replicate 15 0) C_RED (by decide) (by decide)

/-- Unfolding equation for drainBytes. -/
theorem drainBytes_unfold (s : ByteIterState) :
    drainBytes s = match byteNext s with
      | none => []
      | some (b, s2) => b :: drainBytes s2 := by
  rw [drainBytes]
  split
  next heq => simp [heq]
  next b s2 heq => simp [heq]

/-- Unfolding equation for drainBits. -/
theorem drainBits_unfold (s : BitIterState) :
    drainBits s = match bitNext s with
      | none => []
      | some (b, s2) => b :: drainBits s2 := by
  rw [drainBits]
  split
  next heq => simp [heq]
  next b s2 heq => simp [heq]

/-- A list of length three is a literal triple. -/
theorem length_three_decomp (l : List Nat) (h : l.length = 3) :
    ∃ x y z, l = [x, y, z] := by
  match l, h with
  | [x, y, z], _ => exact ⟨x, y, z, rfl⟩

/-- The channel reordering preserves the buffer length. -/
theorem writeChunk_length (buffer offsets : List Nat) (c : Color) :
    (writeChunk buffer offsets c).length = buffer.length := by
  simp [writeChunk]

/-- Writing all three channels overwrites every slot of a three-byte
buffer, so the previous contents are irrelevant. -/
theorem writeChunk_overwrite (x y z : Nat) (order : ColorOrder) (c : Color) :
    writeChunk [x, y, z] order.offsets c = writeChunk [0, 0, 0] order.offsets c := by
  cases order <;> rfl

/-- The byte sequence drained from a ByteIter over a color list is the
concatenation of the channel-ordered three-byte chunks of the colors. -/
theorem drainBytes_spec (order : ColorOrder) (colors : List Color) :
    ∀ buffer : List Nat, buffer.length = 3 →
    drainBytes (ByteIterState.mk colors order.offsets buffer 3)
      = colors.flatMap (fun c => writeChunk [0, 0, 0] order.offsets c) := by
  induction colors with
  | nil =>
    intro buffer _
    rw [drainBytes_unfold]
    simp [byteNext]
  | cons c rest ih =>
    intro buffer hlen
    obtain ⟨x, y, z, rfl⟩ := length_three_decomp buffer hlen
    rw [drainBytes_unfold]
    simp only [byteNext]
    rw [if_pos (by omega)]
    simp only []
    rw [drainBytes_unfold]
    simp only [byteNext]
    rw [if_neg (by omega)]
    simp only []
    rw [drainBytes_unfold]
    simp only [byteNext]
    rw [if_neg (by omega)]
    simp only []
    rw [ih (writeChunk [x, y, z] order.offsets c) (by rw [writeChunk_length]; rfl)]
    rw [writeChunk_overwrite]
    cases order <;> simp [writeChunk, ColorOrder.offsets]

/-- The eight bits BitIter::next produces from one byte, in mask order
128, 64, 32, 16, 8, 4, 2, 1. -/
def msbBits (b : Nat) : List Bool :=
  [decide (b.land 128 ≠ 0), decide (b.land 64 ≠ 0), decide (b.land 32 ≠ 0),
   decide (b.land 16 ≠ 0), decide (b.land 8 ≠ 0), decide (b.land 4 ≠ 0),
   decide (b.land 2 ≠ 0), decide (b.land 1 ≠ 0)]

/-- The bit sequence drained from a BitIter over a byte list is the
concatenation of the per-byte mask walks, eight bits per byte, highest
mask first. -/
theorem drainBits_spec (bytes : List Nat) :
    ∀ x : Nat, drainBits (BitIterState.mk bytes x 0) = bytes.flatMap msbBits := by
  induction bytes with
  | nil =>
    intro x
    rw [drainBits_unfold]
    simp [bitNext]
  | cons b rest ih =>
    intro x
    rw [drainBits_unfold]
    norm_num [bitNext]
    rw [drainBits_unfold]
    norm_num [bitNext]
    rw [drainBits_unfold]
    norm_num [bitNext]
    rw [drainBits_unfold]
    norm_num [bitNext]
    rw [drainBits_unfold]
    norm_num [bitNext]
    rw [drainBits_unfold]
    norm_num [bitNext]
    rw [drainBits_unfold]
    norm_num [bitNext]
    rw [drainBits_unfold]
    norm_num [bitNext]
    rw [ih b]
    simp [msbBits]

/-- A single-bit mask test agrees with Nat.testBit: the byte masked with
2^k is nonzero exactly when bit k is set. -/
theorem land_ne_zero_eq_testBit (b k : Nat) :
    decide (b.land (2 ^ k) ≠ 0) = b.testBit k := by
  have h : b &&& 2 ^ k = (b.testBit k).toNat * 2 ^ k := Nat.and_two_pow b k
  have hpow : 0 < 2 ^ k := Nat.pos_pow_of_pos k (by omega)
  cases htb : b.testBit k
  · rw [htb] at h
    simp at h
    show decide (b &&& 2 ^ k ≠ 0) = false
    simp [h]
  · rw [htb] at h
    simp at h
    show decide (b &&& 2 ^ k ≠ 0) = true
    simp [h]

/-- The mask walk of one byte is its Msb0 bit view: bit j of the walk is
binary digit 7 - j of the byte. -/
theorem msbBits_eq_testBits (b : Nat) :
    msbBits b = (List.range 8).map (fun j => b.testBit (7 - j)) := by
  have h128 := land_ne_zero_eq_testBit b 7
  have h64 := land_ne_zero_eq_testBit b 6
  have h32 := land_ne_zero_eq_testBit b 5
  have h16 := land_ne_zero_eq_testBit b 4
  have h8 := land_ne_zero_eq_testBit b 3
  have h4 := land_ne_zero_eq_testBit b 2
  have h2 := land_ne_zero_eq_testBit b 1
  have h1 := land_ne_zero_eq_testBit b 0
  norm_num at h128 h64 h32 h16 h8 h4 h2 h1
  show [decide (b.land 128 ≠ 0), decide (b.land 64 ≠ 0), decide (b.land 32 ≠ 0),
    decide (b.land 16 ≠ 0), decide (b.land 8 ≠ 0), decide (b.land 4 ≠ 0),
    decide (b.land 2 ≠ 0), decide (b.land 1 ≠ 0)]
    = (List.range 8).map (fun j => b.testBit (7 - j))
  rw [show List.range 8 = [0, 1, 2, 3, 4, 5, 6, 7] from rfl]
  simp only [List.map_cons, List.map_nil]
  norm_num
  exact ⟨h128, h64, h32, h16, h8, h4, h2, h1⟩

/-- The materialized Msb0 bit view is the concatenation of per-byte mask
walks. -/
theorem bytes_as_bit_slice_eq_flatMap (bytes : List Nat) :
    bytes_as_bit_slice bytes = bytes.flatMap msbBits := by
  conv_rhs => rw [show msbBits = fun b => (List.range 8).map (fun j => b.testBit (7 - j))
    from funext msbBits_eq_testBits]
  rfl

/-- The channel-ordered chunk of one color has three bytes. -/
theorem writeChunk_zero_length (order : ColorOrder) (c : Color) :
    (writeChunk [0, 0, 0] order.offsets c).length = 3 := by
  cases order <;> rfl

/-- The concatenated chunks of a color list hold three bytes per color. -/
theorem flatMap_chunk_length (order : ColorOrder) (colors : List Color) :
    (colors.flatMap (fun c => writeChunk [0, 0, 0] order.offsets c)).length
      = 3 * colors.length := by
  induction colors with
  | nil => rfl
  | cons c rest ih =>
    simp only [List.flatMap_cons, List.length_append, ih, writeChunk_zero_length,
      List.length_cons]
    omega

/-- Writing a chunk at a base three cells further in passes over a
three-cell head unchanged. -/
theorem set_cons3 (x y z : Nat) (l : List Nat) (m v : Nat) :
    (x :: y :: z :: l).set (m + 3) v = x :: y :: z :: l.set m v := rfl

/-- The colors_to_bytes write loop at base index i + 1 leaves the first
three buffer cells alone and acts at base i on the rest. -/
theorem colorsToBytesAux_shift (offs : List Nat) (colors : List Color) :
    ∀ (x y z : Nat) (buffer : List Nat) (i : Nat),
    colorsToBytesAux offs colors (x :: y :: z :: buffer) (i + 1)
      = x :: y :: z :: colorsToBytesAux offs colors buffer i := by
  induction colors with
  | nil => intro x y z buffer i; rfl
  | cons c rest ih =>
    intro x y z buffer i
    show colorsToBytesAux offs rest
      ((((x :: y :: z :: buffer).set (3 * (i + 1) + offs.getD 0 0) c.r).set
        (3 * (i + 1) + offs.getD 1 0) c.g).set
        (3 * (i + 1) + offs.getD 2 0) c.b) (i + 1 + 1)
      = x :: y :: z :: colorsToBytesAux offs rest
        ((((buffer.set (3 * i + offs.getD 0 0) c.r).set
          (3 * i + offs.getD 1 0) c.g).set
          (3 * i + offs.getD 2 0) c.b)) (i + 1)
    rw [show 3 * (i + 1) + offs.getD 0 0 = (3 * i + offs.getD 0 0) + 3 from by ring,
      set_cons3,
      show 3 * (i + 1) + offs.getD 1 0 = (3 * i + offs.getD 1 0) + 3 from by ring,
      set_cons3,
      show 3 * (i + 1) + offs.getD 2 0 = (3 * i + offs.getD 2 0) + 3 from by ring,
      set_cons3]
    exact ih x y z _ (i + 1)

/-- The colors_to_bytes write loop from base 0 fills the front of the
buffer with the concatenated chunks and leaves the tail unchanged. -/
theorem colorsToBytesAux_spec (order : ColorOrder) (colors : List Color) :
    ∀ buffer : List Nat, 3 * colors.length ≤ buffer.length →
    colorsToBytesAux order.offsets colors buffer 0
      = colors.flatMap (fun c => writeChunk [0, 0, 0] order.offsets c)
        ++ buffer.drop (3 * colors.length) := by
  induction colors with
  | nil => intro buffer _; rfl
  | cons c rest ih =>
    intro buffer h
    rcases buffer with _ | ⟨x, buffer⟩
    · simp only [List.length_cons, List.length_nil] at h; omega
    rcases buffer with _ | ⟨y, buffer⟩
    · simp only [List.length_cons, List.length_nil] at h; omega
    rcases buffer with _ | ⟨z, buffer⟩
    · simp only [List.length_cons, List.length_nil] at h; omega
    show colorsToBytesAux order.offsets rest
      ((((x :: y :: z :: buffer).set (3 * 0 + order.offsets.getD 0 0) c.r).set
        (3 * 0 + order.offsets.getD 1 0) c.g).set
        (3 * 0 + order.offsets.getD 2 0) c.b) (0 + 1) = _
    have hwrite : (((x :: y :: z :: buffer).set (3 * 0 + order.offsets.getD 0 0) c.r).set
        (3 * 0 + order.offsets.getD 1 0) c.g).set (3 * 0 + order.offsets.getD 2 0) c.b
        = writeChunk [0, 0, 0] order.offsets c ++ buffer := by
      cases order <;> rfl
    rw [hwrite]
    obtain ⟨k0, k1, k2, hk⟩ := length_three_decomp (writeChunk [0, 0, 0] order.offsets c)
      (writeChunk_zero_length order c)
    rw [hk]
    show colorsToBytesAux order.offsets rest (k0 :: k1 :: k2 :: buffer) (0 + 1) = _
    rw [colorsToBytesAux_shift]
    rw [ih buffer (by simp only [List.length_cons] at h; omega)]
    simp only [List.flatMap_cons, hk]
    have hdrop : (x :: y :: z :: buffer).drop (3 * (rest.length + 1))
        = buffer.drop (3 * rest.length) := by
      rw [show 3 * (rest.length + 1) = 3 * rest.length + 3 from by ring]
      rfl
    simp [hdrop]

/-- Truncating the materialized byte buffer to three bytes per color
recovers exactly the concatenated chunks. -/
theorem colors_to_bytes_take (order : ColorOrder) (colors : List Color) (bufLen : Nat)
    (h : 3 * colors.length ≤ bufLen) :
    (colors_to_bytes colors order bufLen).take (3 * colors.length)
      = colors.flatMap (fun c => writeChunk [0, 0, 0] order.offsets c) := by
  unfold colors_to_bytes
  rw [colorsToBytesAux_spec order colors (List.replicate bufLen 0) (by simpa)]
  rw [← flatMap_chunk_length order colors]
  exact List.take_left _ _

/-- The per-byte mask walk written with Nat.testBit, msb first. -/
theorem msbBits_funext :
    msbBits = fun b : Nat => [b.testBit 7, b.testBit 6, b.testBit 5, b.testBit 4,
      b.testBit 3, b.testBit 2, b.testBit 1, b.testBit 0] :=
  funext fun b => (msbBits_eq_testBits b).trans rfl

/-- C10: the lazy pull-based path (ByteIter over the colors, then
BitIter) produces exactly the bit sequence of the materialized path
(colors_to_bytes into a zeroed byte buffer, truncated to three bytes
per color, viewed as an Msb0 bit slice), for every color list, channel
order and buffer size that fits the colors. The deterministic BitIter
is run over the drained output of the deterministic ByteIter, which is
the list semantics of chaining the two lazy iterators. -/
theorem C10_lazy_encoding_refines_materialized (colors : List Color)
    (order : ColorOrder) (bufLen : Nat) (h : 3 * colors.length ≤ bufLen) :
    drainBits (into_bits (drainBytes (into_bytes colors order)))
      = bytes_as_bit_slice
        ((colors_to_bytes colors order bufLen).take (3 * colors.length)) := by
  rw [show into_bytes colors order = ByteIterState.mk colors order.offsets [0, 0, 0] 3
    from rfl]
  rw [drainBytes_spec order colors [0, 0, 0] rfl]
  rw [show into_bits (colors.flatMap fun c => writeChunk [0, 0, 0] order.offsets c)
    = BitIterState.mk (colors.flatMap fun c => writeChunk [0, 0, 0] order.offsets c) 0 0
    from rfl]
  rw [drainBits_spec _ 0]
  rw [colors_to_bytes_take order colors bufLen h]
  rw [bytes_as_bit_slice_eq_flatMap]

/-- C10 witness: one red pixel in GRB order against a 6-byte buffer. -/
theorem C10_lazy_encoding_refines_materialized_witness :
    drainBits (into_bits (drainBytes (into_bytes [C_RED] ColorOrder.GRB)))
      = bytes_as_bit_slice
        ((colors_to_bytes [C_RED] ColorOrder.GRB 6).take (3 * [C_RED].length)) :=
  C10_lazy_encoding_refines_materialized [C_RED] ColorOrder.GRB 6 (by decide)

/-- C8: the byte 0b10110000 drains to the bit sequence
[1,0,1,1,0,0,0,0]; every byte below 256 drains to its eight binary
digits most significant first; and for every channel order and color
list, the bits of the chained adapters are the per-byte msb-first
digits of the byte stream, so the channel permutation never affects the
bit order within a byte. -/
theorem C8_msb_first_bit_order :
    drainBits (into_bits [176]) = [true, false, true, true, false, false, false, false] ∧
    (∀ b : Nat, b < 256 → drainBits (into_bits [b])
      = [b.testBit 7, b.testBit 6, b.testBit 5, b.testBit 4, b.testBit 3, b.testBit 2,
         b.testBit 1, b.testBit 0]) ∧
    (∀ (order : ColorOrder) (colors : List Color),
      drainBits (into_bits (drainBytes (into_bytes colors order)))
        = (drainBytes (into_bytes colors order)).flatMap
            (fun b => [b.testBit 7, b.testBit 6, b.testBit 5, b.testBit 4, b.testBit 3,
              b.testBit 2, b.testBit 1, b.testBit 0])) := by
  refine ⟨?_, ?_, ?_⟩
  · rw [show into_bits [176] = BitIterState.mk [176] 0 0 from rfl]
    rw [drainBits_spec [176] 0]
    decide
  · intro b _
    rw [show into_bits [b] = BitIterState.mk [b] 0 0 from rfl]
    rw [drainBits_spec [b] 0]
    rw [msbBits_funext]
    simp
  · intro order colors
    rw [show into_bits (drainBytes (into_bytes colors order))
      = BitIterState.mk (drainBytes (into_bytes colors order)) 0 0 from rfl]
    rw [drainBits_spec _ 0]
    rw [msbBits_funext]

/-- C8 witness: the msb-first property applied at byte 176 and at one
red pixel in GRB order. -/
theorem C8_msb_first_bit_order_witness :
    drainBits (into_bits [176]) = [true, false, true, true, false, false, false, false] ∧
    drainBits (into_bits [(176 : Nat)])
      = [(176 : Nat).testBit 7, (176 : Nat).testBit 6, (176 : Nat).testBit 5,
         (176 : Nat).testBit 4, (176 : Nat).testBit 3, (176 : Nat).testBit 2,
         (176 : Nat).testBit 1, (176 : Nat).testBit 0] ∧
    drainBits (into_bits (drainBytes (into_bytes [C_RED] ColorOrder.GRB)))
      = (drainBytes (into_bytes [C_RED] ColorOrder.GRB)).flatMap
          (fun b => [b.testBit 7, b.testBit 6, b.testBit 5, b.testBit 4, b.testBit 3,
            b.testBit 2, b.testBit 1, b.testBit 0]) := by
  obtain ⟨h1, h2, h3⟩ := C8_msb_first_bit_order
  exact ⟨h1, h2 176 (by omega), h3 ColorOrder.GRB [C_RED]⟩
